import Mathlib

/-!
Formal model of fish-shell's `src/fish-rust/src/common.rs`.

Wide strings (`wstr` / `WString`) are modelled as lists of Unicode scalar
values (`List Char`).  `ScopedPush`, `EscapeFlags`, `EscapeStringStyle` and
`valid_func_name` are translated directly from the Rust source.  The body of
`escape_string` in the source is a thin wrapper that forwards to
`ffi::escape_string`, a C++ routine that is not part of the source tree we
verify; the per-style encodings are therefore modelled from the specification
(each such definition is marked `Modelled from the spec:`).
-/

/-- Wide strings (`wstr` / `WString` in the source) as lists of Unicode
scalar values. -/
abbrev WString := List Char

/-- Model of the Rust struct `ScopedPush<'a, T>`: the guarded location `var`
(the value behind the `&'a mut T` reference) together with the optional
saved value. -/
structure ScopedPush (α : Type) where
  var : α
  saved_value : Option α
  deriving DecidableEq

/-- Model of `ScopedPush::new`: `mem::replace(var, new_value)` stores
`new_value` in the location and saves the old value. -/
def ScopedPush.new {α : Type} (var : α) (new_value : α) : ScopedPush α :=
  ⟨new_value, some var⟩

/-- Model of `ScopedPush::restore`: `if let Some(saved_value) = self.saved_value.take()`
writes the saved value back and clears it; otherwise nothing happens. -/
def ScopedPush.restore {α : Type} (p : ScopedPush α) : ScopedPush α :=
  match p.saved_value with
  | some s => ⟨s, none⟩
  | none => p

/-- Model of the `Drop` impl for `ScopedPush`, which just calls `restore`. -/
def ScopedPush.drop {α : Type} (p : ScopedPush α) : ScopedPush α :=
  p.restore

/-- Model of the Rust struct `EscapeFlags` (four booleans). -/
structure EscapeFlags where
  no_printables : Bool
  no_quoted : Bool
  no_tilde : Bool
  symbolic : Bool
  deriving DecidableEq

/-- Model of `#[derive(Default)]` on `EscapeFlags`: every `bool` field
defaults to `false`. -/
def EscapeFlags.default : EscapeFlags :=
  ⟨false, false, false, false⟩

/-- Model of the Rust enum `EscapeStringStyle`. -/
inductive EscapeStringStyle where
  | Script (flags : EscapeFlags)
  | Url
  | Var
  | Regex
  deriving DecidableEq

/-- Model of `valid_func_name`: non-empty, does not start with `-`, and
contains neither `/` nor NUL. -/
def valid_func_name (name : WString) : Bool :=
  if name = [] then false
  else if name.head? = some '-' then false
  else if '/' ∈ name then false
  else if Char.ofNat 0 ∈ name then false
  else true

/-- Hexadecimal digit characters, uppercase (`0`..`9`, `A`..`F`). -/
def hex_digit (n : Nat) : Char :=
  if n < 10 then Char.ofNat (48 + n) else Char.ofNat (55 + n)

/-- Numeric value of an uppercase hexadecimal digit character. -/
def hex_val (c : Char) : Nat :=
  if c.toNat ≤ 57 then c.toNat - 48 else c.toNat - 55

/-- Modelled from the spec: the regex metacharacter set escaped by the
`STRING_STYLE_REGEX` branch of `ffi::escape_string` (C++ code not under
`src/`): `. ^ $ * + ? ( ) [ ] \x7b \x7d | \ -`. -/
def regex_special : WString :=
  ['.', '^', '$', '*', '+', '?', '(', ')', '[', ']',
   Char.ofNat 123, Char.ofNat 125, '|', '\\', '-']

/-- Modelled from the spec: the `Regex` style of `ffi::escape_string`
(C++ code not under `src/`): each metacharacter is preceded by a backslash,
every other character passes through unchanged. -/
def escape_string_regex (s : WString) : WString :=
  s.flatMap (fun c => if c ∈ regex_special then ['\\', c] else [c])

/-- Modelled from the spec: non-printable characters are the control
characters (including NUL) and DEL. -/
def is_ctl (c : Char) : Bool :=
  c.toNat < 32 || c.toNat = 127

/-- Modelled from the spec: the backslash escape sequence emitted by the
`Script` style for a non-printable character — a short mnemonic form where
one exists (newline, tab, carriage return), otherwise a hex form carrying
the code point. -/
def ctl_escape (c : Char) : WString :=
  if c = Char.ofNat 10 then ['\\', 'n']
  else if c = Char.ofNat 9 then ['\\', 't']
  else if c = Char.ofNat 13 then ['\\', 'r']
  else ['\\', 'x', hex_digit (c.toNat / 16), hex_digit (c.toNat % 16)]

/-- Modelled from the spec: the visible placeholder glyph used by the
`symbolic` flag for a control character (the Unicode control-picture block;
DEL gets its own picture). -/
def symbolic_glyph (c : Char) : Char :=
  if c.toNat < 32 then Char.ofNat (0x2400 + c.toNat) else Char.ofNat 0x2421

/-- Modelled from the spec: the characters that are syntactically meaningful
to the script language and hence escaped under the `Script` style's default
classification (backslash, both quotes, `$`, `;`, `|`, `&`, `<`, `>`,
space, brace/bracket/parenthesis characters, `#`, `*`, `?`, `%`). -/
def script_special : WString :=
  ['\\', '"', Char.ofNat 39, '$', ';', '|', '&', '<', '>', ' ',
   Char.ofNat 123, Char.ofNat 125, '[', ']', '(', ')', '#', '*', '?', '%']

/-- Modelled from the spec: per-character emission of the `Script` style of
`ffi::escape_string` (C++ code not under `src/`).  `first` records whether
the character is at the home-directory-expansion position (the start of the
string), where a tilde is meaningful.  Non-printables come first (symbolic
glyph or backslash sequence), a backslash is always doubled, `no_printables`
skips the special-character step, and a leading tilde is escaped unless
`no_tilde` is set. -/
def escape_script_char (flags : EscapeFlags) (first : Bool) (c : Char) : WString :=
  if is_ctl c then
    if flags.symbolic then [symbolic_glyph c] else ctl_escape c
  else if c = '\\' then ['\\', '\\']
  else if flags.no_printables then [c]
  else if c = '~' then
    if first && !flags.no_tilde then ['\\', c] else [c]
  else if c ∈ script_special then ['\\', c]
  else [c]

/-- Modelled from the spec: the `Script` style of `ffi::escape_string`
(C++ code not under `src/`).  With `no_quoted` unset, a whole-string
single-quote wrap is attempted first: if the text contains no single quote,
no backslash and no non-printable, it is returned wrapped in single quotes
(the empty string thus becomes the two-character empty-quotes token).
Otherwise the per-character escape loop runs; under it an empty input
yields an empty output. -/
def escape_string_script (flags : EscapeFlags) (s : WString) : WString :=
  if !flags.no_quoted &&
      s.all (fun c => !(c = Char.ofNat 39) && !(c = '\\') && !is_ctl c) then
    Char.ofNat 39 :: (s ++ [Char.ofNat 39])
  else
    match s with
    | [] => []
    | c :: rest => escape_script_char flags true c ++ rest.flatMap (escape_script_char flags false)

/-- Modelled from the spec: the unreserved set of the `Url` style — ASCII
letters, digits, and `-` `_` `.` `~`. -/
def url_unreserved (c : Char) : Bool :=
  c.isAlpha || c.isDigit || c = '-' || c = '_' || c = '.' || c = '~'

/-- UTF-8 byte sequence of a Unicode scalar value. -/
def utf8_bytes (c : Char) : List Nat :=
  let n := c.toNat
  if n < 0x80 then [n]
  else if n < 0x800 then [0xC0 + n / 0x40, 0x80 + n % 0x40]
  else if n < 0x10000 then
    [0xE0 + n / 0x1000, 0x80 + n / 0x40 % 0x40, 0x80 + n % 0x40]
  else
    [0xF0 + n / 0x40000, 0x80 + n / 0x1000 % 0x40, 0x80 + n / 0x40 % 0x40,
     0x80 + n % 0x40]

/-- Modelled from the spec: the `Url` style of `ffi::escape_string`
(C++ code not under `src/`): unreserved characters pass through, every
other scalar value is UTF-8 encoded and each byte emitted as `%` followed
by two uppercase hex digits. -/
def escape_string_url (s : WString) : WString :=
  s.flatMap (fun c =>
    if url_unreserved c then [c]
    else (utf8_bytes c).flatMap (fun b => ['%', hex_digit (b / 16), hex_digit (b % 16)]))

/-- Modelled from the spec: the identifier characters of the `Var` style —
letters, digits and underscore. -/
def var_ident (c : Char) : Bool :=
  c.isAlpha || c.isDigit || c = '_'

/-- Six uppercase hex digits of a code point (fixed width so that a decoder
can delimit the escape unambiguously). -/
def hex6 (n : Nat) : WString :=
  [hex_digit (n / 0x100000 % 16), hex_digit (n / 0x10000 % 16),
   hex_digit (n / 0x1000 % 16), hex_digit (n / 0x100 % 16),
   hex_digit (n / 0x10 % 16), hex_digit (n % 16)]

/-- Modelled from the spec: per-character emission of the `Var` style of
`ffi::escape_string` (C++ code not under `src/`).  Identifier characters
pass through unchanged — except a digit in the leading position, so that the
result never begins with a digit — and every other character is encoded as
the fixed escape marker `%` (not an identifier character, so it cannot
collide) followed by the hexadecimal code point. -/
def escape_var_char (first : Bool) (c : Char) : WString :=
  if var_ident c && !(first && c.isDigit) then [c]
  else '%' :: hex6 c.toNat

/-- Modelled from the spec: the `Var` style of `ffi::escape_string`
(C++ code not under `src/`). -/
def escape_string_var (s : WString) : WString :=
  match s with
  | [] => []
  | c :: rest => escape_var_char true c ++ rest.flatMap (escape_var_char false)

/-- Model of `escape_string`: the Rust wrapper dispatches on the style (the
`Script` flags travel with the call); the per-style bodies live behind the
FFI boundary and are the spec-modelled functions above. -/
def escape_string (s : WString) (style : EscapeStringStyle) : WString :=
  match style with
  | .Script flags => escape_string_script flags s
  | .Url => escape_string_url s
  | .Var => escape_string_var s
  | .Regex => escape_string_regex s

/-- Modelled from the spec: the companion decoder of the `Regex` style (the
spec requires reversibility but keeps the decoder outside this core's
scope).  A backslash makes the next character literal; everything else
passes through. -/
def unescape_regex : WString → WString
  | [] => []
  | c :: rest =>
    if c = '\\' then
      match rest with
      | [] => []
      | c2 :: rest2 => c2 :: unescape_regex rest2
    else c :: unescape_regex rest

/-- Modelled from the spec: the companion decoder of the `Var` style.  The
escape marker `%` introduces six hex digits carrying a code point;
identifier characters stand for themselves. -/
def unescape_var : WString → WString
  | [] => []
  | c :: rest =>
    if c = '%' then
      match rest with
      | d1 :: d2 :: d3 :: d4 :: d5 :: d6 :: rest2 =>
        Char.ofNat (hex_val d1 * 0x100000 + hex_val d2 * 0x10000 +
          hex_val d3 * 0x1000 + hex_val d4 * 0x100 + hex_val d5 * 0x10 +
          hex_val d6) :: unescape_var rest2
      | _ => []
    else c :: unescape_var rest

/-- Modelled from the spec: first stage of the companion decoder of the
`Url` style.  Each `%` introduces two hex digits forming a byte; characters
other than `%` stand for themselves. -/
def pct_items : WString → List (Char ⊕ Nat)
  | [] => []
  | c :: rest =>
    if c = '%' then
      match rest with
      | h1 :: h2 :: rest2 => Sum.inr (hex_val h1 * 16 + hex_val h2) :: pct_items rest2
      | _ => []
    else Sum.inl c :: pct_items rest

mutual

/-- Modelled from the spec: second stage of the companion decoder of the
`Url` style.  The high bits of a byte say how many continuation bytes
belong to the same UTF-8 scalar value; literal characters stand for
themselves. -/
def utf8_assemble : List (Char ⊕ Nat) → WString
  | [] => []
  | Sum.inl c :: rest => c :: utf8_assemble rest
  | Sum.inr b1 :: rest =>
    if b1 < 0x80 then Char.ofNat b1 :: utf8_assemble rest
    else if b1 < 0xE0 then utf8_cont1 (b1 - 0xC0) rest
    else if b1 < 0xF0 then utf8_cont2 (b1 - 0xE0) rest
    else utf8_cont3 (b1 - 0xF0) rest

/-- Reads the last continuation byte of a UTF-8 sequence and emits the
scalar value accumulated so far shifted onto it. -/
def utf8_cont1 (hi : Nat) : List (Char ⊕ Nat) → WString
  | Sum.inr b2 :: rest2 => Char.ofNat (hi * 0x40 + (b2 - 0x80)) :: utf8_assemble rest2
  | _ => []

/-- Reads the antepenultimate continuation byte of a UTF-8 sequence. -/
def utf8_cont2 (hi : Nat) : List (Char ⊕ Nat) → WString
  | Sum.inr b2 :: rest2 => utf8_cont1 (hi * 0x40 + (b2 - 0x80)) rest2
  | _ => []

/-- Reads the first continuation byte of a four-byte UTF-8 sequence. -/
def utf8_cont3 (hi : Nat) : List (Char ⊕ Nat) → WString
  | Sum.inr b2 :: rest2 => utf8_cont2 (hi * 0x40 + (b2 - 0x80)) rest2
  | _ => []

end

/-- Modelled from the spec: the companion decoder of the `Url` style —
percent-decoding followed by UTF-8 reassembly. -/
def unescape_url (s : WString) : WString :=
  utf8_assemble (pct_items s)

theorem char_toNat_lt (c : Char) : c.toNat < 0x110000 := by
  rcases c.valid with h | ⟨h1, h2⟩
  · exact lt_trans h (by norm_num)
  · exact h2

theorem hex_val_hex_digit_fin : ∀ d : Fin 16, hex_val (hex_digit d.val) = d.val := by decide

theorem hex_val_hex_digit (d : Nat) (h : d < 16) : hex_val (hex_digit d) = d :=
  hex_val_hex_digit_fin ⟨d, h⟩

theorem hex_byte_val (b : Nat) (h : b < 256) :
    hex_val (hex_digit (b / 16)) * 16 + hex_val (hex_digit (b % 16)) = b := by
  rw [hex_val_hex_digit _ (by omega), hex_val_hex_digit _ (Nat.mod_lt _ (by norm_num))]
  omega

theorem escape_string_regex_cons (c : Char) (rest : WString) :
    escape_string_regex (c :: rest) =
      (if c ∈ regex_special then ['\\', c] else [c]) ++ escape_string_regex rest := by
  simp [escape_string_regex]

theorem unescape_regex_bs (c : Char) (T : WString) :
    unescape_regex ('\\' :: c :: T) = c :: unescape_regex T := rfl

theorem unescape_regex_plain (c : Char) (h : ¬(c = '\\')) (T : WString) :
    unescape_regex (c :: T) = c :: unescape_regex T := by
  rw [unescape_regex.eq_def]
  simp [h]

theorem regex_roundtrip_aux (s : WString) :
    unescape_regex (escape_string_regex s) = s := by
  induction s with
  | nil => rfl
  | cons c rest ih =>
    rw [escape_string_regex_cons]
    by_cases h : c ∈ regex_special
    · rw [if_pos h]
      show unescape_regex ('\\' :: c :: escape_string_regex rest) = c :: rest
      rw [unescape_regex_bs, ih]
    · rw [if_neg h]
      have hc : ¬(c = '\\') := by
        intro hc
        exact h (hc ▸ (by decide))
      show unescape_regex (c :: escape_string_regex rest) = c :: rest
      rw [unescape_regex_plain c hc, ih]

theorem var_ident_ne_marker (c : Char) (h : var_ident c = true) : ¬(c = '%') := by
  intro hc
  subst hc
  exact absurd h (by decide)

theorem unescape_var_plain (c : Char) (h : ¬(c = '%')) (T : WString) :
    unescape_var (c :: T) = c :: unescape_var T := by
  rw [unescape_var.eq_def]
  simp [h]

theorem hex6_val (n : Nat) (h : n < 0x1000000) :
    hex_val (hex_digit (n / 0x100000 % 16)) * 0x100000 +
      hex_val (hex_digit (n / 0x10000 % 16)) * 0x10000 +
      hex_val (hex_digit (n / 0x1000 % 16)) * 0x1000 +
      hex_val (hex_digit (n / 0x100 % 16)) * 0x100 +
      hex_val (hex_digit (n / 0x10 % 16)) * 0x10 +
      hex_val (hex_digit (n % 16)) = n := by
  rw [hex_val_hex_digit _ (Nat.mod_lt _ (by norm_num)),
    hex_val_hex_digit _ (Nat.mod_lt _ (by norm_num)),
    hex_val_hex_digit _ (Nat.mod_lt _ (by norm_num)),
    hex_val_hex_digit _ (Nat.mod_lt _ (by norm_num)),
    hex_val_hex_digit _ (Nat.mod_lt _ (by norm_num)),
    hex_val_hex_digit _ (Nat.mod_lt _ (by norm_num))]
  omega

theorem unescape_var_enc (c : Char) (T : WString) :
    unescape_var ('%' :: hex6 c.toNat ++ T) = c :: unescape_var T := by
  have hlt : c.toNat < 0x1000000 := lt_trans (char_toNat_lt c) (by norm_num)
  show unescape_var ('%' :: hex_digit (c.toNat / 0x100000 % 16) ::
    hex_digit (c.toNat / 0x10000 % 16) :: hex_digit (c.toNat / 0x1000 % 16) ::
    hex_digit (c.toNat / 0x100 % 16) :: hex_digit (c.toNat / 0x10 % 16) ::
    hex_digit (c.toNat % 16) :: T) = c :: unescape_var T
  rw [unescape_var.eq_def]
  simp only [if_pos rfl]
  rw [hex6_val c.toNat hlt, Char.ofNat_toNat]
  simp

theorem escape_var_char_first_false (c : Char) :
    escape_var_char false c = if var_ident c then [c] else '%' :: hex6 c.toNat := by
  simp [escape_var_char]

theorem var_roundtrip_tail (s : WString) :
    unescape_var (s.flatMap (escape_var_char false)) = s := by
  induction s with
  | nil => rfl
  | cons c rest ih =>
    rw [List.flatMap_cons, escape_var_char_first_false]
    by_cases h : var_ident c
    · rw [if_pos h]
      show unescape_var (c :: rest.flatMap (escape_var_char false)) = c :: rest
      rw [unescape_var_plain c (var_ident_ne_marker c h), ih]
    · rw [if_neg h]
      show unescape_var ('%' :: hex6 c.toNat ++ rest.flatMap (escape_var_char false)) = c :: rest
      rw [unescape_var_enc, ih]

theorem var_roundtrip_aux (s : WString) :
    unescape_var (escape_string_var s) = s := by
  cases s with
  | nil => rfl
  | cons c rest =>
    show unescape_var (escape_var_char true c ++ rest.flatMap (escape_var_char false)) = c :: rest
    cases hvi : var_ident c with
    | false =>
      rw [show escape_var_char true c = '%' :: hex6 c.toNat from by simp [escape_var_char, hvi]]
      rw [unescape_var_enc, var_roundtrip_tail]
    | true =>
      cases hd : c.isDigit with
      | true =>
        rw [show escape_var_char true c = '%' :: hex6 c.toNat from by
          simp [escape_var_char, hvi, hd]]
        rw [unescape_var_enc, var_roundtrip_tail]
      | false =>
        rw [show escape_var_char true c = [c] from by simp [escape_var_char, hvi, hd]]
        show unescape_var (c :: rest.flatMap (escape_var_char false)) = c :: rest
        rw [unescape_var_plain c (var_ident_ne_marker c hvi), var_roundtrip_tail]

theorem url_unreserved_ne_pct (c : Char) (h : url_unreserved c = true) : ¬(c = '%') := by
  intro hc
  subst hc
  exact absurd h (by decide)

theorem pct_items_plain (c : Char) (h : ¬(c = '%')) (T : WString) :
    pct_items (c :: T) = Sum.inl c :: pct_items T := by
  rw [pct_items.eq_def]
  simp [h]

theorem pct_items_pct (b : Nat) (h : b < 256) (T : WString) :
    pct_items ('%' :: hex_digit (b / 16) :: hex_digit (b % 16) :: T) =
      Sum.inr b :: pct_items T := by
  show Sum.inr (hex_val (hex_digit (b / 16)) * 16 + hex_val (hex_digit (b % 16))) ::
    pct_items T = Sum.inr b :: pct_items T
  rw [hex_byte_val b h]

theorem utf8_bytes_lt (c : Char) : ∀ b ∈ utf8_bytes c, b < 256 := by
  intro b hb
  have h := char_toNat_lt c
  rw [utf8_bytes] at hb
  split_ifs at hb with h1 h2 h3 <;> simp at hb <;> omega

theorem utf8_assemble_inl (c : Char) (T : List (Char ⊕ Nat)) :
    utf8_assemble (Sum.inl c :: T) = c :: utf8_assemble T := by
  rw [utf8_assemble.eq_def]

theorem utf8_assemble_b1 (b : Nat) (h : b < 0x80) (T : List (Char ⊕ Nat)) :
    utf8_assemble (Sum.inr b :: T) = Char.ofNat b :: utf8_assemble T := by
  rw [utf8_assemble.eq_def]
  dsimp only
  rw [if_pos h]

theorem utf8_assemble_b2 (b1 b2 : Nat) (hlo : 0xC0 ≤ b1) (hhi : b1 < 0xE0)
    (T : List (Char ⊕ Nat)) :
    utf8_assemble (Sum.inr b1 :: Sum.inr b2 :: T) =
      Char.ofNat ((b1 - 0xC0) * 0x40 + (b2 - 0x80)) :: utf8_assemble T := by
  rw [utf8_assemble.eq_def]
  dsimp only
  rw [if_neg (by omega), if_pos (by omega)]
  rw [utf8_cont1.eq_def]

theorem utf8_assemble_b3 (b1 b2 b3 : Nat) (hlo : 0xE0 ≤ b1) (hhi : b1 < 0xF0)
    (T : List (Char ⊕ Nat)) :
    utf8_assemble (Sum.inr b1 :: Sum.inr b2 :: Sum.inr b3 :: T) =
      Char.ofNat (((b1 - 0xE0) * 0x40 + (b2 - 0x80)) * 0x40 + (b3 - 0x80)) ::
        utf8_assemble T := by
  rw [utf8_assemble.eq_def]
  dsimp only
  rw [if_neg (by omega), if_neg (by omega), if_pos (by omega)]
  rw [utf8_cont2.eq_def]
  dsimp only
  rw [utf8_cont1.eq_def]

theorem utf8_assemble_b4 (b1 b2 b3 b4 : Nat) (hlo : 0xF0 ≤ b1) (T : List (Char ⊕ Nat)) :
    utf8_assemble (Sum.inr b1 :: Sum.inr b2 :: Sum.inr b3 :: Sum.inr b4 :: T) =
      Char.ofNat ((((b1 - 0xF0) * 0x40 + (b2 - 0x80)) * 0x40 + (b3 - 0x80)) * 0x40 +
        (b4 - 0x80)) :: utf8_assemble T := by
  rw [utf8_assemble.eq_def]
  dsimp only
  rw [if_neg (by omega), if_neg (by omega), if_neg (by omega)]
  rw [utf8_cont3.eq_def]
  dsimp only
  rw [utf8_cont2.eq_def]
  dsimp only
  rw [utf8_cont1.eq_def]

theorem utf8_assemble_enc (c : Char) (T : List (Char ⊕ Nat)) :
    utf8_assemble ((utf8_bytes c).map Sum.inr ++ T) = c :: utf8_assemble T := by
  have hv := char_toNat_lt c
  by_cases h1 : c.toNat < 0x80
  · rw [show utf8_bytes c = [c.toNat] from by simp [utf8_bytes, h1]]
    show utf8_assemble (Sum.inr c.toNat :: T) = c :: utf8_assemble T
    rw [utf8_assemble_b1 _ h1, Char.ofNat_toNat]
  · by_cases h2 : c.toNat < 0x800
    · rw [show utf8_bytes c = [0xC0 + c.toNat / 0x40, 0x80 + c.toNat % 0x40] from by
        simp [utf8_bytes, h1, h2]]
      show utf8_assemble (Sum.inr (0xC0 + c.toNat / 0x40) ::
        Sum.inr (0x80 + c.toNat % 0x40) :: T) = c :: utf8_assemble T
      rw [utf8_assemble_b2 _ _ (by omega) (by omega)]
      rw [show (0xC0 + c.toNat / 0x40 - 0xC0) * 0x40 + (0x80 + c.toNat % 0x40 - 0x80) =
        c.toNat from by omega, Char.ofNat_toNat]
    · by_cases h3 : c.toNat < 0x10000
      · rw [show utf8_bytes c = [0xE0 + c.toNat / 0x1000, 0x80 + c.toNat / 0x40 % 0x40,
          0x80 + c.toNat % 0x40] from by simp [utf8_bytes, h1, h2, h3]]
        show utf8_assemble (Sum.inr (0xE0 + c.toNat / 0x1000) ::
          Sum.inr (0x80 + c.toNat / 0x40 % 0x40) :: Sum.inr (0x80 + c.toNat % 0x40) :: T) =
          c :: utf8_assemble T
        rw [utf8_assemble_b3 _ _ _ (by omega) (by omega)]
        rw [show ((0xE0 + c.toNat / 0x1000 - 0xE0) * 0x40 +
          (0x80 + c.toNat / 0x40 % 0x40 - 0x80)) * 0x40 + (0x80 + c.toNat % 0x40 - 0x80) =
          c.toNat from by omega, Char.ofNat_toNat]
      · rw [show utf8_bytes c = [0xF0 + c.toNat / 0x40000, 0x80 + c.toNat / 0x1000 % 0x40,
          0x80 + c.toNat / 0x40 % 0x40, 0x80 + c.toNat % 0x40] from by
          simp [utf8_bytes, h1, h2, h3]]
        show utf8_assemble (Sum.inr (0xF0 + c.toNat / 0x40000) ::
          Sum.inr (0x80 + c.toNat / 0x1000 % 0x40) :: Sum.inr (0x80 + c.toNat / 0x40 % 0x40) ::
          Sum.inr (0x80 + c.toNat % 0x40) :: T) = c :: utf8_assemble T
        rw [utf8_assemble_b4 _ _ _ _ (by omega)]
        rw [show (((0xF0 + c.toNat / 0x40000 - 0xF0) * 0x40 +
          (0x80 + c.toNat / 0x1000 % 0x40 - 0x80)) * 0x40 +
          (0x80 + c.toNat / 0x40 % 0x40 - 0x80)) * 0x40 + (0x80 + c.toNat % 0x40 - 0x80) =
          c.toNat from by omega, Char.ofNat_toNat]

theorem pct_items_bytes (bs : List Nat) (hbs : ∀ b ∈ bs, b < 256) (T : WString) :
    pct_items (bs.flatMap (fun b => ['%', hex_digit (b / 16), hex_digit (b % 16)]) ++ T) =
      bs.map Sum.inr ++ pct_items T := by
  induction bs with
  | nil => simp
  | cons b bs ih =>
    rw [List.flatMap_cons]
    show pct_items ('%' :: hex_digit (b / 16) :: hex_digit (b % 16) ::
      (bs.flatMap (fun b => ['%', hex_digit (b / 16), hex_digit (b % 16)]) ++ T)) =
      (b :: bs).map Sum.inr ++ pct_items T
    rw [pct_items_pct b (hbs b (by simp))]
    rw [ih (fun x hx => hbs x (by simp [hx]))]
    simp

def url_items (c : Char) : List (Char ⊕ Nat) :=
  if url_unreserved c then [Sum.inl c] else (utf8_bytes c).map Sum.inr

theorem escape_string_url_cons (c : Char) (rest : WString) :
    escape_string_url (c :: rest) =
      (if url_unreserved c then [c]
       else (utf8_bytes c).flatMap (fun b => ['%', hex_digit (b / 16), hex_digit (b % 16)])) ++
        escape_string_url rest := by
  simp [escape_string_url]

theorem pct_items_enc (s : WString) :
    pct_items (escape_string_url s) = s.flatMap url_items := by
  induction s with
  | nil => rfl
  | cons c rest ih =>
    rw [escape_string_url_cons, List.flatMap_cons]
    simp only [url_items]
    by_cases h : url_unreserved c
    · rw [if_pos h, if_pos h]
      show pct_items (c :: escape_string_url rest) = Sum.inl c :: rest.flatMap url_items
      rw [pct_items_plain c (url_unreserved_ne_pct c h), ih]
    · rw [if_neg h, if_neg h]
      rw [pct_items_bytes (utf8_bytes c) (utf8_bytes_lt c) (escape_string_url rest), ih]

theorem utf8_assemble_items (s : WString) :
    utf8_assemble (s.flatMap url_items) = s := by
  induction s with
  | nil => rfl
  | cons c rest ih =>
    rw [List.flatMap_cons]
    simp only [url_items]
    by_cases h : url_unreserved c
    · rw [if_pos h]
      show utf8_assemble (Sum.inl c :: rest.flatMap url_items) = c :: rest
      rw [utf8_assemble_inl, ih]
    · rw [if_neg h]
      rw [utf8_assemble_enc, ih]

theorem url_roundtrip_aux (s : WString) :
    unescape_url (escape_string_url s) = s := by
  rw [unescape_url, pct_items_enc, utf8_assemble_items]

/-- C1: for each of the spec's literal regex acceptance inputs, escaping under
the `Regex` style returns exactly the listed output. -/
theorem claim_regex_literal_cases :
    escape_string ("hello world!".data) .Regex = ("hello world!".data) ∧
    escape_string (".ext".data) .Regex = ("\\.ext".data) ∧
    escape_string ("\x7bword\x7d".data) .Regex = ("\\\x7bword\\\x7d".data) ∧
    escape_string ("hola-mundo".data) .Regex = ("hola\\-mundo".data) ∧
    escape_string ("$17.42 is your total?".data) .Regex =
      ("\\$17\\.42 is your total\\?".data) := by
  refine ⟨?_, ?_, ?_, ?_, ?_⟩ <;> decide

/-- C2: under the `Regex` style, every backslash present in the input is
rendered as two backslashes and the character following it is classified and
escaped independently; in particular the spec's test case holds. -/
theorem claim_regex_backslash_doubling :
    (∀ a b : WString, escape_string (a ++ '\\' :: b) .Regex =
      escape_string a .Regex ++ '\\' :: '\\' :: escape_string b .Regex) ∧
    escape_string ("not really escaped\\?".data) .Regex =
      ("not really escaped\\\\\\?".data) := by
  constructor
  · intro a b
    have h : ('\\' : Char) ∈ regex_special := by decide
    simp [escape_string, escape_string_regex, h]
  · decide

/-- C3: `valid_func_name` returns true iff the candidate is non-empty, does
not start with `-`, and contains neither `/` nor the NUL character. -/
theorem claim_valid_func_name_iff (name : WString) :
    valid_func_name name = true ↔
      name ≠ [] ∧ name.head? ≠ some '-' ∧ ('/' : Char) ∉ name ∧ Char.ofNat 0 ∉ name := by
  unfold valid_func_name
  split_ifs with h1 h2 h3 h4 <;> simp_all

/-- C3 witness: evaluated at the concrete name `foo`. -/
theorem claim_valid_func_name_iff_witness :
    valid_func_name ("foo".data) = true ↔
      ("foo".data ≠ [] ∧ ("foo".data : WString).head? ≠ some '-' ∧
        ('/' : Char) ∉ ("foo".data : WString) ∧ Char.ofNat 0 ∉ ("foo".data : WString)) :=
  claim_valid_func_name_iff ("foo".data)

/-- C4: `ScopedPush::new` sets the location to the new value immediately, and
dropping the guard restores the original value regardless of intermediate
writes to the location during the guard's lifetime. -/
theorem claim_scoped_push_new_drop {α : Type} (v n w : α) :
    (ScopedPush.new v n).var = n ∧
      (ScopedPush.drop ⟨w, (ScopedPush.new v n).saved_value⟩).var = v :=
  ⟨rfl, rfl⟩

/-- C4 witness: evaluated at concrete values over `Nat`. -/
theorem claim_scoped_push_new_drop_witness :
    (ScopedPush.new 1 2).var = 2 ∧
      (ScopedPush.drop ⟨3, (ScopedPush.new 1 2).saved_value⟩).var = 1 :=
  claim_scoped_push_new_drop 1 2 3

/-- C5: the default `EscapeFlags` value has all four flags equal to false. -/
theorem claim_escape_flags_default :
    EscapeFlags.default.no_printables = false ∧ EscapeFlags.default.no_quoted = false ∧
      EscapeFlags.default.no_tilde = false ∧ EscapeFlags.default.symbolic = false :=
  ⟨rfl, rfl, rfl, rfl⟩

/-- C6: `escape_string` is total — every input under every style has a defined
output, with no error outcome. -/
theorem claim_escape_string_total (s : WString) (style : EscapeStringStyle) :
    ∃ out : WString, escape_string s style = out :=
  ⟨escape_string s style, rfl⟩

/-- C6 witness: evaluated at a concrete input containing NUL. -/
theorem claim_escape_string_total_witness :
    ∃ out : WString, escape_string [Char.ofNat 0] .Url = out :=
  claim_escape_string_total [Char.ofNat 0] .Url

/-- C7: `escape_string` is deterministic — its output depends on nothing but
the input string and the style. -/
theorem claim_escape_string_deterministic (s : WString) (style : EscapeStringStyle)
    (o1 o2 : WString) (h1 : escape_string s style = o1) (h2 : escape_string s style = o2) :
    o1 = o2 :=
  h1.symm.trans h2

/-- C7 witness: both calls at the concrete input `.` under `Regex` produce the
same output. -/
theorem claim_escape_string_deterministic_witness :
    escape_string (".".data) .Regex = ['\\', '.'] :=
  claim_escape_string_deterministic (".".data) .Regex
    (escape_string (".".data) .Regex) ['\\', '.'] rfl (by decide)

/-- C8: under `Script` with `no_quoted` unset the empty string escapes to the
two-character empty-quotes token, and with `no_quoted` set to the empty
string, whatever the other flags. -/
theorem claim_script_empty_string (np nt sy : Bool) :
    escape_string [] (.Script ⟨np, false, nt, sy⟩) = [Char.ofNat 39, Char.ofNat 39] ∧
      escape_string [] (.Script ⟨np, true, nt, sy⟩) = [] :=
  ⟨rfl, rfl⟩

/-- C8 witness: evaluated at a concrete flag assignment. -/
theorem claim_script_empty_string_witness :
    escape_string [] (.Script ⟨true, false, true, false⟩) = [Char.ofNat 39, Char.ofNat 39] ∧
      escape_string [] (.Script ⟨true, true, true, false⟩) = [] :=
  claim_script_empty_string true true false

/-- C9: round-trip — for every style with a companion decoder (`Url`, `Var`
and `Regex`), decoding the escaped output reproduces the original input
exactly, for every input string. -/
theorem claim_escape_roundtrip (s : WString) :
    unescape_url (escape_string s .Url) = s ∧
      unescape_var (escape_string s .Var) = s ∧
      unescape_regex (escape_string s .Regex) = s :=
  ⟨url_roundtrip_aux s, var_roundtrip_aux s, regex_roundtrip_aux s⟩

/-- C9 witness: evaluated at the concrete input `a/`. -/
theorem claim_escape_roundtrip_witness :
    unescape_url (escape_string ("a/".data) .Url) = ("a/".data) ∧
      unescape_var (escape_string ("a/".data) .Var) = ("a/".data) ∧
      unescape_regex (escape_string ("a/".data) .Regex) = ("a/".data) :=
  claim_escape_roundtrip ("a/".data)

/-- C10: `ScopedPush::restore` is idempotent — after one `restore`, any
further `restore` (including the implicit one on drop) leaves the guarded
location unchanged. -/
theorem claim_restore_idempotent {α : Type} (p : ScopedPush α) :
    p.restore.restore = p.restore ∧ p.restore.drop = p.restore := by
  cases p with
  | mk var saved =>
    cases saved <;> exact ⟨rfl, rfl⟩

/-- C10 witness: evaluated at a concrete guard over `Nat`. -/
theorem claim_restore_idempotent_witness :
    (ScopedPush.restore (ScopedPush.restore ⟨1, some 2⟩) = ScopedPush.restore ⟨1, some 2⟩) ∧
      ScopedPush.drop (ScopedPush.restore (⟨1, some 2⟩ : ScopedPush Nat)) =
        ScopedPush.restore ⟨1, some 2⟩ :=
  claim_restore_idempotent ⟨1, some 2⟩
